import Mathlib

/-!
Verification development for the coin-selection subsystem of a blockchain
execution node (GraphQL resolver `coins_to_spend` and its two selection
paths), shallowly embedded from `crates/fuel-core/src/schema/coins.rs`.

Identifiers (addresses, utxo ids, nonces, asset ids) are modelled as `Nat`;
amounts are `Nat` (the source accumulates `u64` amounts into `u128`, which
cannot overflow for any realistic ledger, so plain naturals are faithful).
Storage reads are modelled as fields of a `ReadView` record; fallible reads
return `Except`.
-/

/-- The identifier of a spendable entry: either a plain coin utxo id or a
bridged message nonce. Embeds `coins::CoinId`. -/
inductive CoinId where
  | utxo (id : Nat)
  | message (nonce : Nat)
deriving DecidableEq, Repr

/-- Errors surfaced by the coin-selection subsystem.  Embeds
`CoinsQueryError` (the variants used by the code under verification). -/
inductive CoinsQueryError where
  | tooManyExcludedId (provided : Nat) (allowed : Nat)
  | duplicateAssets (asset_id : Nat)
  | insufficientCoins (asset_id : Nat) (shortfall : Nat)
  | notFound
  | conversion
  | storage
deriving DecidableEq, Repr

/-- A plain coin record.  Embeds the `CoinModel` fields exposed by the
schema object `Coin` (utxo id, owner, amount, asset id, creation block,
creation tx index). -/
structure CoinModel where
  utxo_id : Nat
  owner : Nat
  amount : Nat
  asset_id : Nat
  block_created : Nat
  tx_created_idx : Nat
deriving DecidableEq, Repr

/-- A bridged (message-originated) coin record.  Embeds the
`MessageCoinModel` fields exposed by the schema object `MessageCoin`. -/
structure MessageCoinModel where
  sender : Nat
  recipient : Nat
  nonce : Nat
  amount : Nat
  da_height : Nat
deriving DecidableEq, Repr

/-- The schema-level coin type: a plain coin or a bridged message coin.
Embeds the union `CoinType` of `schema/coins.rs`. -/
inductive CoinType where
  | coin (c : CoinModel)
  | messageCoin (m : MessageCoinModel)
deriving DecidableEq, Repr

/-- The amount carried by a coin record.  Embeds `CoinType::amount`. -/
def CoinType.amount : CoinType → Nat
  | .coin c => c.amount
  | .messageCoin m => m.amount

/-- The selection-time identifier of a resolved record. -/
def coinTypeId : CoinType → CoinId
  | .coin c => .utxo c.utxo_id
  | .messageCoin m => .message m.nonce

/-- Sum of the amounts of a list of resolved records. -/
def sumAmounts (l : List CoinType) : Nat :=
  (l.map CoinType.amount).sum

/-- One element of the caller-supplied per-asset query.  Embeds
`SpendQueryElementInput` (asset id, target amount, optional max count). -/
structure SpendQueryElementInput where
  asset_id : Nat
  amount : Nat
  max : Option Nat
deriving DecidableEq, Repr

/-- The caller-supplied exclusion lists.  Embeds `ExcludeInput`. -/
structure ExcludeInput where
  utxos : List Nat
  messages : List Nat
deriving DecidableEq, Repr

/-- The exclusion set built once per query.  Modelled from the spec:
`Exclude` itself lives outside the verified slice; the spec describes it as
a set of `CoinIdentifier` with a membership test, never mutated after
construction.  We model it as the underlying list of identifiers with list
membership. -/
structure Exclude where
  ids : List CoinId
deriving DecidableEq, Repr

/-- Conversion of the optional caller exclusion input into the exclusion
set: utxo ids first, then message nonces.  Embeds
`impl From for Exclude` in `schema/coins.rs`. -/
def excludeOfInput (value : Option ExcludeInput) : Exclude :=
  match value with
  | none => ⟨[]⟩
  | some e =>
      ⟨e.utxos.map (fun u => CoinId.utxo u) ++
        e.messages.map (fun n => CoinId.message n)⟩

/-- A key of the secondary coins-to-spend index.  Modelled from the spec:
the index key type lives outside the verified slice; the spec describes it
as a sortable key over owner, asset, amount and identifier, and
`into_coin_id` in the source pattern-matches it into a utxo id or nonce.
The per-query owner and asset are fixed by the index lookup, so the key
carries the identifier and the amount. -/
inductive CoinsToSpendIndexKey where
  | coinKey (utxo_id : Nat) (amount : Nat)
  | messageKey (nonce : Nat) (amount : Nat)
deriving DecidableEq, Repr

/-- The amount recorded in an index key. -/
def keyAmount : CoinsToSpendIndexKey → Nat
  | .coinKey _ a => a
  | .messageKey _ a => a

/-- The identifier recorded in an index key. -/
def keyCoinId : CoinsToSpendIndexKey → CoinId
  | .coinKey u _ => .utxo u
  | .messageKey n _ => .message n

/-- Sum of the amounts of a list of index keys. -/
def sumKeys (l : List CoinsToSpendIndexKey) : Nat :=
  (l.map keyAmount).sum

/-- Conversion of selected index keys to coin identifiers.  Embeds
`into_coin_id` of `schema/coins.rs`. -/
def into_coin_id (selected : List CoinsToSpendIndexKey) : List CoinId :=
  selected.map keyCoinId

/-- The stored content of a plain coin (a compressed coin: the utxo id is
the storage key and is re-attached at resolution time). -/
structure CoinContent where
  owner : Nat
  amount : Nat
  asset_id : Nat
  block_created : Nat
  tx_created_idx : Nat
deriving DecidableEq, Repr

/-- The stored content of a bridged message (the nonce is the storage key).
`data_len` is the length of the message payload; only payload-free
messages convert to spendable message coins. -/
structure MessageContent where
  sender : Nat
  recipient : Nat
  amount : Nat
  data_len : Nat
  da_height : Nat
deriving DecidableEq, Repr

/-- Consensus parameters consumed by the resolver: the maximum number of
transaction inputs and the base asset id. -/
structure ConsensusParams where
  max_inputs : Nat
  base_asset_id : Nat

/-- The point-in-time read view of ledger state consumed by the selectors:
the indexation-availability flag, the batch size, the secondary
coins-to-spend index (a list in the externally maintained descending-amount
order, per owner and asset), keyed record lookups, and the full owned-entry
domain used by the fallback selector. -/
structure ReadView where
  indexation_available : Bool
  batch_size : Nat
  coins_index : Nat → Nat → List CoinsToSpendIndexKey
  coin_content : Nat → Except CoinsQueryError CoinContent
  message_content : Nat → Except CoinsQueryError MessageContent
  domain : Nat → Nat → List CoinType

/-- Conversion of a stored message into a spendable message coin; fails
when the message carries a payload and is therefore not representable as a
coin.  Modelled from the spec: the conversion step lives outside the
verified slice; the spec says it fails when the entry cannot currently be
represented as spendable. -/
def tryIntoMessageCoin (nonce : Nat) (m : MessageContent) :
    Except CoinsQueryError MessageCoinModel :=
  if m.data_len = 0 then
    .ok ⟨m.sender, m.recipient, nonce, m.amount, m.da_height⟩
  else
    .error .conversion

/-- Resolution of one selected identifier into a concrete record: a plain
coin by direct lookup, a bridged identifier by message lookup followed by
conversion.  Embeds the match inside the per-asset loop of
`coins_to_spend_with_cache`. -/
def resolve_one (db : ReadView) : CoinId → Except CoinsQueryError CoinType
  | .utxo u => do
      let cc ← db.coin_content u
      .ok (.coin ⟨u, cc.owner, cc.amount, cc.asset_id, cc.block_created,
        cc.tx_created_idx⟩)
  | .message n => do
      let mc ← db.message_content n
      let m ← tryIntoMessageCoin n mc
      .ok (.messageCoin m)

/-- Sequential resolution of the selected identifiers, preserving selection
order.  Embeds the inner `for` loop of `coins_to_spend_with_cache`. -/
def resolve_ids (db : ReadView) : List CoinId → Except CoinsQueryError (List CoinType)
  | [] => .ok []
  | cid :: rest => do
      let c ← resolve_one db cid
      let cs ← resolve_ids db rest
      .ok (c :: cs)

/-- The indexed selector.  Modelled from the spec: `select_coins_to_spend`
lives outside the verified slice.  Per the spec it walks the index keys in
their externally maintained descending-amount order, skips excluded keys,
accumulates amount and identifier, stops with success as soon as the
cumulative amount reaches the target, and fails with
`InsufficientCoins(asset_id, shortfall)` when the cap is reached or the
index is exhausted before the target is met.  Batching only bounds memory
and round-trips, so the pure model folds over the key list directly;
`acc` holds the selection so far in reverse order. -/
def selectGo (target cap asset_id : Nat) (exclude : Exclude)
    (keys acc : List CoinsToSpendIndexKey) :
    Except CoinsQueryError (List CoinsToSpendIndexKey) :=
  if target ≤ sumKeys acc then
    .ok acc.reverse
  else if acc.length = cap then
    .error (.insufficientCoins asset_id (target - sumKeys acc))
  else
    match keys with
    | [] => .error (.insufficientCoins asset_id (target - sumKeys acc))
    | k :: rest =>
        if keyCoinId k ∈ exclude.ids then
          selectGo target cap asset_id exclude rest acc
        else
          selectGo target cap asset_id exclude rest (k :: acc)

/-- Entry point of the indexed selector.  Modelled from the spec (see
`selectGo`); the batch size parameter is kept for signature fidelity but
does not affect the selected set. -/
def select_coins_to_spend (keys : List CoinsToSpendIndexKey)
    (total_amount max : Nat) (asset_id : Nat) (exclude : Exclude)
    (_batch_size : Nat) : Except CoinsQueryError (List CoinsToSpendIndexKey) :=
  selectGo total_amount max asset_id exclude keys []

/-- The effective per-asset cap computed on the indexed path.  Embeds the
clamp in `coins_to_spend_with_cache` (requested max, defaulting to
`max_input`, clamped by `max_input`). -/
def effective_cap_with_cache (q : SpendQueryElementInput) (max_input : Nat) : Nat :=
  Nat.min (q.max.getD max_input) max_input

/-- Selection and resolution for one asset target on the indexed path.
Embeds one iteration of the per-asset loop of
`coins_to_spend_with_cache`. -/
def spend_one_asset (db : ReadView) (owner : Nat) (excluded : Exclude)
    (max_input : Nat) (asset : SpendQueryElementInput) :
    Except CoinsQueryError (List CoinType) := do
  let selected ← select_coins_to_spend (db.coins_index owner asset.asset_id)
    asset.amount (effective_cap_with_cache asset max_input) asset.asset_id
    excluded db.batch_size
  resolve_ids db (into_coin_id selected)

/-- The indexed selection path: per-asset selection and resolution in query
order, any per-asset failure aborting the whole call.  Embeds
`coins_to_spend_with_cache`. -/
def coins_to_spend_with_cache (db : ReadView) (owner : Nat)
    (excluded : Exclude) (max_input : Nat) :
    List SpendQueryElementInput → Except CoinsQueryError (List (List CoinType))
  | [] => .ok []
  | asset :: rest => do
      let coins_per_asset ← spend_one_asset db owner excluded max_input asset
      let all ← coins_to_spend_with_cache db owner excluded max_input rest
      .ok (coins_per_asset :: all)

/-- A normalized per-asset funding target.  Embeds `AssetSpendTarget` as
constructed by `coins_to_spend_without_cache` (asset id, target amount,
clamped max count). -/
structure AssetSpendTarget where
  asset_id : Nat
  target : Nat
  max : Nat
deriving DecidableEq, Repr

/-- The effective per-asset cap computed on the fallback path.  Embeds the
clamp in `coins_to_spend_without_cache` (requested max, defaulting to
`max_input`, clamped by `max_input`). -/
def effective_cap_without_cache (q : SpendQueryElementInput) (max_input : Nat) : Nat :=
  Nat.min (q.max.getD max_input) max_input

/-- The normalized multi-asset query.  Modelled from the spec: `SpendQuery`
lives outside the verified slice; the spec describes it as the immutable
packaging of owner, ordered targets, exclusion set and base asset id. -/
structure SpendQuery where
  owner : Nat
  targets : List AssetSpendTarget
  exclude : Exclude
  base_asset_id : Nat

/-- Construction of the normalized query.  Modelled from the spec: the
constructor is fallible in the source signature, but the validations of
the normalizer (exclusion-count ceiling, duplicate assets) are performed
by the resolver before this point, so packaging itself always succeeds. -/
def SpendQuery.new (owner : Nat) (targets : List AssetSpendTarget)
    (exclude : Exclude) (base_asset_id : Nat) :
    Except CoinsQueryError SpendQuery :=
  .ok ⟨owner, targets, exclude, base_asset_id⟩

/-- First stage of the fallback selector ("sample"): accumulate eligible
candidates in permuted order until the cumulative amount reaches the
target or the cap is hit; modelled from the spec (the source of
`random_improve` lives outside the verified slice).  The external
guarantees are those of the indexed selector, so reaching the cap or
exhausting the eligible set below target fails with `InsufficientCoins`.
Returns the selection (in pick order) together with the unselected
remainder handed to the improvement stage. -/
def sampleGo (target cap asset_id : Nat)
    (cands acc : List CoinType) :
    Except CoinsQueryError (List CoinType × List CoinType) :=
  if target ≤ sumAmounts acc then
    .ok (acc.reverse, cands)
  else if acc.length = cap then
    .error (.insufficientCoins asset_id (target - sumAmounts acc))
  else
    match cands with
    | [] => .error (.insufficientCoins asset_id (target - sumAmounts acc))
    | c :: rest => sampleGo target cap asset_id rest (c :: acc)

/-- The element of the list of least amount (first such element), used to
find the weakest contribution of the current selection and the best
replacement candidate. -/
def minByAmount : List CoinType → Option CoinType
  | [] => none
  | c :: rest =>
      match minByAmount rest with
      | none => some c
      | some m => some (if m.amount < c.amount then m else c)

/-- One improvement attempt of the fallback selector.  Modelled from the
spec: swap an unselected eligible candidate for the currently weakest
contribution when that reduces the surplus over the target while keeping
the cumulative amount at or above the target; the replacement chosen is
the one of least sufficient amount (best surplus reduction).  Returns the
new selection and unselected pool, or `none` when no improving swap
exists. -/
def improveOnce (target : Nat) (sel unsel : List CoinType) :
    Option (List CoinType × List CoinType) :=
  match minByAmount sel with
  | none => none
  | some w =>
      let rest := sel.erase w
      let cands := unsel.filter (fun u =>
        decide (u.amount < w.amount) &&
        decide (target ≤ u.amount + sumAmounts rest))
      match minByAmount cands with
      | none => none
      | some u => some (u :: rest, w :: unsel.erase u)

/-- The bounded improvement loop of the fallback selector, with an attempt
budget proportional to the cap.  Modelled from the spec. -/
def improveLoop (target : Nat) : Nat → List CoinType → List CoinType → List CoinType
  | 0, sel, _ => sel
  | fuel + 1, sel, unsel =>
      match improveOnce target sel unsel with
      | none => sel
      | some (sel2, unsel2) => improveLoop target fuel sel2 unsel2

/-- The seed-indexed query-scoped permutation applied to the eligible
candidates.  Modelled from the spec: the generator is injected as an
explicit seed parameter; a rotation by the seed stands for the drawn
permutation. -/
def seedPermute (seed : Nat) (l : List CoinType) : List CoinType :=
  l.rotate seed

/-- Fallback selection for one asset target: filter the full owned domain
through the exclusion set, permute, sample, then improve.  Modelled from
the spec (`random_improve` per-asset body). -/
def select_one_fallback (db : ReadView) (owner seed : Nat)
    (exclude : Exclude) (t : AssetSpendTarget) :
    Except CoinsQueryError (List CoinType) := do
  let eligible := (db.domain owner t.asset_id).filter
    (fun c => decide (coinTypeId c ∉ exclude.ids))
  let (sel, unsel) ← sampleGo t.target t.max t.asset_id
    (seedPermute seed eligible) []
  .ok (improveLoop t.target t.max sel unsel)

/-- The fallback selection path: per-asset sample-then-improve in query
order, any per-asset failure aborting the whole call.  Modelled from the
spec (`random_improve` over a normalized `SpendQuery`). -/
def random_improve (db : ReadView) (sq : SpendQuery) (seed : Nat) :
    Except CoinsQueryError (List (List CoinType)) :=
  go sq.targets
where
  go : List AssetSpendTarget → Except CoinsQueryError (List (List CoinType))
    | [] => .ok []
    | t :: rest => do
        let coins ← select_one_fallback db sq.owner seed sq.exclude t
        let all ← go rest
        .ok (coins :: all)

/-- The fallback selection path entry point: clamp each requested cap,
build the normalized query, and run the randomized selector.  Embeds
`coins_to_spend_without_cache` (the final identity re-tagging of entity
coins into schema coins is the identity in this model). -/
def coins_to_spend_without_cache (db : ReadView) (owner : Nat)
    (query_per_asset : List SpendQueryElementInput) (exclude : Exclude)
    (max_input : Nat) (base_asset_id : Nat) (seed : Nat) :
    Except CoinsQueryError (List (List CoinType)) := do
  let targets := query_per_asset.map (fun e =>
    AssetSpendTarget.mk e.asset_id e.amount (effective_cap_without_cache e max_input))
  let spend_query ← SpendQuery.new owner targets exclude base_asset_id
  random_improve db spend_query seed

/-- Dispatch between the indexed and fallback selection paths on the
indexation-availability flag.  Embeds `ReadView::coins_to_spend`.  The
`seed` parameter is the entropy injected into the fallback selector; the
indexed path takes none. -/
def ReadView.coins_to_spend (db : ReadView) (owner : Nat)
    (query_per_asset : List SpendQueryElementInput) (excluded : Exclude)
    (params : ConsensusParams) (max_input : Nat) (seed : Nat) :
    Except CoinsQueryError (List (List CoinType)) :=
  if db.indexation_available then
    coins_to_spend_with_cache db owner excluded max_input query_per_asset
  else
    coins_to_spend_without_cache db owner query_per_asset excluded max_input
      params.base_asset_id seed

/-- The duplicate-asset scan of the resolver: first asset id already seen,
if any.  Embeds the `HashSet`-insert loop of `coins_to_spend` (`seen`
holds the ids inserted so far). -/
def firstDupGo (seen : List Nat) : List Nat → Option Nat
  | [] => none
  | a :: rest => if a ∈ seen then some a else firstDupGo (a :: seen) rest

/-- First duplicated asset id of the query, if any. -/
def firstDup (l : List Nat) : Option Nat :=
  firstDupGo [] l

/-- The count of caller-supplied excluded identifiers.  Embeds the
`excluded_id_count` computation of the resolver. -/
def excludedIdCount (excluded_ids : Option ExcludeInput) : Nat :=
  match excluded_ids with
  | none => 0
  | some e => e.utxos.length + e.messages.length

/-- The GraphQL resolver `coins_to_spend`: exclusion-count ceiling check,
exclusion-set construction, duplicate-asset check, truncation of the
target list to the ceiling, then dispatch to the selection paths.  Embeds
`CoinQuery::coins_to_spend` of `schema/coins.rs`. -/
def coins_to_spend_resolver (params : ConsensusParams) (db : ReadView)
    (owner : Nat) (query_per_asset : List SpendQueryElementInput)
    (excluded_ids : Option ExcludeInput) (seed : Nat) :
    Except CoinsQueryError (List (List CoinType)) :=
  let max_input := params.max_inputs
  let excluded_id_count := excludedIdCount excluded_ids
  if max_input < excluded_id_count then
    .error (.tooManyExcludedId excluded_id_count max_input)
  else
    let exclude := excludeOfInput excluded_ids
    match firstDup (query_per_asset.map (fun q => q.asset_id)) with
    | some a => .error (.duplicateAssets a)
    | none =>
        let truncated := query_per_asset.take max_input
        ReadView.coins_to_spend db owner truncated exclude params max_input seed

/-- The resolver of the `asset_id` field of a `MessageCoin` schema object:
it reads the chain's base asset id from the consensus parameters and
ignores the message itself.  Embeds `MessageCoin::asset_id` of
`schema/coins.rs`. -/
def messageCoin_asset_id (params : ConsensusParams) (_m : MessageCoinModel) : Nat :=
  params.base_asset_id

/-- Amount coherence of one index key with the record store: when the
key's identifier resolves, the stored amount agrees with the amount
recorded in the key.  This is the externally maintained contract of the
secondary index (the index is built from the same events as the record
stores). -/
def keyAmountMatches (db : ReadView) : CoinsToSpendIndexKey → Bool
  | .coinKey u amt =>
      match db.coin_content u with
      | .ok cc => cc.amount == amt
      | .error _ => true
  | .messageKey n amt =>
      match db.message_content n with
      | .ok m => m.amount == amt
      | .error _ => true

/-- Amount coherence of the secondary index with the record stores, for
the assets touched by a query. -/
def IndexCoherent (db : ReadView) (owner : Nat)
    (qs : List SpendQueryElementInput) : Prop :=
  ∀ q ∈ qs, ∀ k ∈ db.coins_index owner q.asset_id, keyAmountMatches db k = true

/-- A concrete indexed read view used to exercise the theorems: owner 7
holds asset 1 as two plain coins (amounts 20 and 5) and one bridged
message (amount 10), and asset 2 as one plain coin (amount 7), all
coherently indexed; asset 3 has no entries. -/
def dbIndexed : ReadView where
  indexation_available := true
  batch_size := 10
  coins_index := fun o a =>
    if o = 7 ∧ a = 1 then
      [.coinKey 100 20, .messageKey 5 10, .coinKey 102 5]
    else if o = 7 ∧ a = 2 then
      [.coinKey 200 7]
    else []
  coin_content := fun u =>
    if u = 100 then .ok ⟨7, 20, 1, 3, 0⟩
    else if u = 102 then .ok ⟨7, 5, 1, 3, 2⟩
    else if u = 200 then .ok ⟨7, 7, 2, 4, 1⟩
    else .error .notFound
  message_content := fun n =>
    if n = 5 then .ok ⟨1, 7, 10, 0, 4⟩ else .error .notFound
  domain := fun _ _ => []

/-- A concrete non-indexed read view used to exercise the fallback path:
owner 7 holds asset 1 as three plain coins (amounts 5, 10 and 20). -/
def dbFallback : ReadView where
  indexation_available := false
  batch_size := 10
  coins_index := fun _ _ => []
  coin_content := fun _ => .error .notFound
  message_content := fun _ => .error .notFound
  domain := fun o a =>
    if o = 7 ∧ a = 1 then
      [.coin ⟨100, 7, 5, 1, 0, 0⟩, .coin ⟨101, 7, 10, 1, 0, 1⟩,
        .coin ⟨102, 7, 20, 1, 0, 2⟩]
    else []

/-- Consensus parameters used by the concrete examples: ceiling 5, base
asset id 9. -/
def exampleParams : ConsensusParams := ⟨5, 9⟩

/-- A single-asset query for asset 1 with target 12 and no requested cap. -/
def exampleQuery : List SpendQueryElementInput := [⟨1, 12, none⟩]

/-- The selection `exampleQuery` produces against `dbIndexed`: the single
20-amount coin (descending walk stops at the first key). -/
def exampleResult : List (List CoinType) := [[.coin ⟨100, 7, 20, 1, 3, 0⟩]]

/-- A single-asset query for asset 1 with target 25 and no requested cap:
its selection against `dbIndexed` must take the bridged message as well. -/
def exampleQueryMsg : List SpendQueryElementInput := [⟨1, 25, none⟩]

/-- The selection `exampleQueryMsg` produces against `dbIndexed`: the
20-amount coin followed by the 10-amount bridged message. -/
def exampleResultMsg : List (List CoinType) :=
  [[.coin ⟨100, 7, 20, 1, 3, 0⟩, .messageCoin ⟨1, 7, 5, 10, 4⟩]]

/-! Supporting lemmas. -/

theorem sumKeys_reverse (l : List CoinsToSpendIndexKey) :
    sumKeys l.reverse = sumKeys l := by
  simp [sumKeys, List.map_reverse, List.sum_reverse]

theorem sumAmounts_reverse (l : List CoinType) :
    sumAmounts l.reverse = sumAmounts l := by
  simp [sumAmounts, List.map_reverse, List.sum_reverse]

/-- Invariant of the indexed selection walk: a successful walk returns a
selection whose amounts reach the target, whose size respects the cap,
whose members avoid the exclusion set, and whose members come from the
walked keys or the accumulator. -/
theorem selectGo_ok (target cap asset_id : Nat) (ex : Exclude) :
    ∀ (keys acc sel : List CoinsToSpendIndexKey),
      acc.length ≤ cap →
      (∀ k ∈ acc, keyCoinId k ∉ ex.ids) →
      selectGo target cap asset_id ex keys acc = .ok sel →
      target ≤ sumKeys sel ∧ sel.length ≤ cap ∧
        (∀ k ∈ sel, keyCoinId k ∉ ex.ids) ∧
        (∀ k ∈ sel, k ∈ keys ∨ k ∈ acc) := by
  intro keys
  induction keys with
  | nil =>
      intro acc sel hlen hexc h
      rw [selectGo] at h
      split at h
      · cases h
        refine ⟨by simpa [sumKeys_reverse] using ‹target ≤ sumKeys acc›, ?_, ?_, ?_⟩
        · simpa using hlen
        · intro k hk
          exact hexc k (List.mem_reverse.mp hk)
        · intro k hk
          exact Or.inr (List.mem_reverse.mp hk)
      · split at h <;> cases h
  | cons k rest ih =>
      intro acc sel hlen hexc h
      rw [selectGo] at h
      split at h
      · cases h
        refine ⟨by simpa [sumKeys_reverse] using ‹target ≤ sumKeys acc›, ?_, ?_, ?_⟩
        · simpa using hlen
        · intro k2 hk2
          exact hexc k2 (List.mem_reverse.mp hk2)
        · intro k2 hk2
          exact Or.inr (List.mem_reverse.mp hk2)
      · rename_i hnot
        split at h
        · cases h
        · rename_i hcap
          split at h
          · rename_i hexcl
            obtain ⟨h1, h2, h3, h4⟩ := ih acc sel hlen hexc h
            exact ⟨h1, h2, h3, fun k2 hk2 => by
              rcases h4 k2 hk2 with hm | hm
              · exact Or.inl (List.mem_cons_of_mem _ hm)
              · exact Or.inr hm⟩
          · rename_i hexcl
            have hlen2 : (k :: acc).length ≤ cap := by
              have : acc.length < cap := Nat.lt_of_le_of_ne hlen hcap
              simpa using this
            have hexc2 : ∀ k2 ∈ k :: acc, keyCoinId k2 ∉ ex.ids := by
              intro k2 hk2
              rcases List.mem_cons.mp hk2 with rfl | hm
              · exact hexcl
              · exact hexc k2 hm
            obtain ⟨h1, h2, h3, h4⟩ := ih (k :: acc) sel hlen2 hexc2 h
            refine ⟨h1, h2, h3, fun k2 hk2 => ?_⟩
            rcases h4 k2 hk2 with hm | hm
            · exact Or.inl (List.mem_cons_of_mem _ hm)
            · rcases List.mem_cons.mp hm with rfl | hm2
              · exact Or.inl (List.mem_cons_self _ _)
              · exact Or.inr hm2

/-- Resolution attaches the looked-up identifier to the produced record. -/
theorem resolve_one_id (db : ReadView) (cid : CoinId) (c : CoinType)
    (h : resolve_one db cid = .ok c) : coinTypeId c = cid := by
  cases cid with
  | utxo u =>
      simp only [resolve_one, bind, Except.bind] at h
      cases hcc : db.coin_content u with
      | error e => simp [hcc] at h
      | ok cc =>
          simp only [hcc] at h
          cases h
          rfl
  | message n =>
      simp only [resolve_one, bind, Except.bind] at h
      cases hmc : db.message_content n with
      | error e => simp [hmc] at h
      | ok mc =>
          simp only [hmc] at h
          cases htm : tryIntoMessageCoin n mc with
          | error e => simp [htm] at h
          | ok m =>
              simp only [htm] at h
              cases h
              unfold tryIntoMessageCoin at htm
              split at htm
              · cases htm; rfl
              · cases htm

/-- Resolution of a coherent index key produces a record carrying the
key's amount. -/
theorem resolve_one_amount (db : ReadView) (k : CoinsToSpendIndexKey)
    (c : CoinType) (hm : keyAmountMatches db k = true)
    (h : resolve_one db (keyCoinId k) = .ok c) :
    c.amount = keyAmount k := by
  cases k with
  | coinKey u amt =>
      simp only [keyCoinId, resolve_one, bind, Except.bind] at h
      cases hcc : db.coin_content u with
      | error e => simp [hcc] at h
      | ok cc =>
          simp only [hcc] at h
          cases h
          simp only [keyAmountMatches, hcc, beq_iff_eq] at hm
          simpa [CoinType.amount, keyAmount] using hm
  | messageKey n amt =>
      simp only [keyCoinId, resolve_one, bind, Except.bind] at h
      cases hmc : db.message_content n with
      | error e => simp [hmc] at h
      | ok mc =>
          simp only [hmc] at h
          cases htm : tryIntoMessageCoin n mc with
          | error e => simp [htm] at h
          | ok m =>
              simp only [htm] at h
              cases h
              simp only [keyAmountMatches, hmc, beq_iff_eq] at hm
              unfold tryIntoMessageCoin at htm
              split at htm
              · cases htm
                simpa [CoinType.amount, keyAmount] using hm
              · cases htm

/-- A successful sequential resolution resolves the identifiers pointwise,
in order. -/
theorem resolve_ids_ok (db : ReadView) :
    ∀ (ids : List CoinId) (cs : List CoinType),
      resolve_ids db ids = .ok cs →
      List.Forall₂ (fun cid c => resolve_one db cid = .ok c) ids cs := by
  intro ids
  induction ids with
  | nil => intro cs h; cases h; exact List.Forall₂.nil
  | cons cid rest ih =>
      intro cs h
      simp only [resolve_ids, bind, Except.bind] at h
      cases hr : resolve_one db cid with
      | error e => rw [hr] at h; cases h
      | ok c =>
          rw [hr] at h
          cases hrs : resolve_ids db rest with
          | error e => rw [hrs] at h; cases h
          | ok cs2 =>
              rw [hrs] at h
              cases h
              exact List.Forall₂.cons hr (ih cs2 hrs)

/-- Pointwise resolution of coherent keys preserves the amount sum and
maps each produced record back to its key's identifier. -/
theorem resolve_pointwise (db : ReadView) :
    ∀ (sel : List CoinsToSpendIndexKey) (cs : List CoinType),
      List.Forall₂ (fun k c => resolve_one db (keyCoinId k) = .ok c) sel cs →
      ((∀ k ∈ sel, keyAmountMatches db k = true) → sumAmounts cs = sumKeys sel) ∧
        (∀ c ∈ cs, ∃ k ∈ sel, coinTypeId c = keyCoinId k) := by
  intro sel
  induction sel with
  | nil =>
      intro cs h
      cases h
      exact ⟨fun _ => rfl, by intro c hc; cases hc⟩
  | cons k rest ih =>
      intro cs h
      cases h with
      | cons hk hrest =>
          rename_i c cs2
          obtain ⟨ihsum, ihmem⟩ := ih cs2 hrest
          constructor
          · intro hcoh
            have h1 : c.amount = keyAmount k :=
              resolve_one_amount db k c (hcoh k (List.mem_cons_self _ _)) hk
            have h2 : sumAmounts cs2 = sumKeys rest :=
              ihsum fun k2 hk2 => hcoh k2 (List.mem_cons_of_mem _ hk2)
            simp [sumAmounts, sumKeys] at h2 ⊢
            omega
          · intro c2 hc2
            rcases List.mem_cons.mp hc2 with rfl | hm
            · exact ⟨k, List.mem_cons_self _ _, resolve_one_id db _ _ hk⟩
            · obtain ⟨k2, hk2, he⟩ := ihmem c2 hm
              exact ⟨k2, List.mem_cons_of_mem _ hk2, he⟩

/-- The per-asset selection-and-resolution step of the indexed path
satisfies the per-asset contract: amounts reach the target, the size
respects the effective cap, and no record's identifier is excluded. -/
theorem spend_one_asset_ok (db : ReadView) (owner : Nat) (ex : Exclude)
    (max_input : Nat) (asset : SpendQueryElementInput) (cs : List CoinType)
    (hcoh : ∀ k ∈ db.coins_index owner asset.asset_id, keyAmountMatches db k = true)
    (h : spend_one_asset db owner ex max_input asset = .ok cs) :
    asset.amount ≤ sumAmounts cs ∧
      cs.length ≤ effective_cap_with_cache asset max_input ∧
      ∀ c ∈ cs, coinTypeId c ∉ ex.ids := by
  simp only [spend_one_asset, select_coins_to_spend, bind, Except.bind] at h
  cases hsel : selectGo asset.amount (effective_cap_with_cache asset max_input)
      asset.asset_id ex (db.coins_index owner asset.asset_id) [] with
  | error e => rw [hsel] at h; cases h
  | ok sel =>
      rw [hsel] at h
      obtain ⟨hsum, hlen, hexc, hmem⟩ :=
        selectGo_ok _ _ _ ex _ [] sel (Nat.zero_le _) (by intro k hk; cases hk) hsel
      have hf2 := resolve_ids_ok db (into_coin_id sel) cs h
      have hf3 : List.Forall₂ (fun k c => resolve_one db (keyCoinId k) = .ok c) sel cs := by
        simpa [into_coin_id, List.forall₂_map_left_iff] using hf2
      obtain ⟨hsumr, hmemr⟩ := resolve_pointwise db sel cs hf3
      have hsel_coh : ∀ k ∈ sel, keyAmountMatches db k = true := by
        intro k hk
        rcases hmem k hk with hm | hm
        · exact hcoh k hm
        · cases hm
      refine ⟨?_, ?_, ?_⟩
      · rw [hsumr hsel_coh]; exact hsum
      · have := List.Forall₂.length_eq hf3
        omega
      · intro c hc
        obtain ⟨k, hk, he⟩ := hmemr c hc
        rw [he]
        exact hexc k hk

/-- Structure of a successful indexed-path run: one inner list per asset
target, at the same index, each produced by the per-asset step. -/
theorem with_cache_ok (db : ReadView) (owner : Nat) (ex : Exclude)
    (max_input : Nat) :
    ∀ (qs : List SpendQueryElementInput) (res : List (List CoinType)),
      coins_to_spend_with_cache db owner ex max_input qs = .ok res →
      res.length = qs.length ∧
        ∀ i (h1 : i < qs.length) (h2 : i < res.length),
          spend_one_asset db owner ex max_input (qs.get ⟨i, h1⟩) =
            .ok (res.get ⟨i, h2⟩) := by
  intro qs
  induction qs with
  | nil =>
      intro res h
      cases h
      exact ⟨rfl, fun i h1 _ => absurd h1 (Nat.not_lt_zero i)⟩
  | cons q rest ih =>
      intro res h
      simp only [coins_to_spend_with_cache, bind, Except.bind] at h
      cases hq : spend_one_asset db owner ex max_input q with
      | error e => simp [hq] at h
      | ok cs =>
          simp only [hq] at h
          cases hrest : coins_to_spend_with_cache db owner ex max_input rest with
          | error e => simp [hrest] at h
          | ok res2 =>
              simp only [hrest] at h
              cases h
              obtain ⟨hlen, hidx⟩ := ih res2 hrest
              refine ⟨by simp [hlen], ?_⟩
              intro i h1 h2
              cases i with
              | zero => simpa using hq
              | succ j =>
                  have hj1 : j < rest.length := by simpa using h1
                  have hj2 : j < res2.length := by simpa using h2
                  simpa using hidx j hj1 hj2

/-- A failing per-asset step anywhere in the target list makes the whole
indexed-path run fail. -/
theorem with_cache_fail (db : ReadView) (owner : Nat) (ex : Exclude)
    (max_input : Nat) :
    ∀ (qs : List SpendQueryElementInput) (q : SpendQueryElementInput)
      (e : CoinsQueryError),
      q ∈ qs →
      spend_one_asset db owner ex max_input q = .error e →
      ∃ e2, coins_to_spend_with_cache db owner ex max_input qs = .error e2 := by
  intro qs
  induction qs with
  | nil => intro q e hq _; cases hq
  | cons x rest ih =>
      intro q e hq hfail
      rcases List.mem_cons.mp hq with rfl | hm
      · exact ⟨e, by simp [coins_to_spend_with_cache, bind, Except.bind, hfail]⟩
      · cases hx : spend_one_asset db owner ex max_input x with
        | error e2 =>
            exact ⟨e2, by simp [coins_to_spend_with_cache, bind, Except.bind, hx]⟩
        | ok cs =>
            obtain ⟨e2, he2⟩ := ih q e hm hfail
            exact ⟨e2, by
              simp [coins_to_spend_with_cache, bind, Except.bind, hx, he2]⟩

/-- Invariant of the sampling walk of the fallback selector. -/
theorem sampleGo_ok (target cap asset_id : Nat) :
    ∀ (cands acc sel unsel : List CoinType),
      acc.length ≤ cap →
      sampleGo target cap asset_id cands acc = .ok (sel, unsel) →
      target ≤ sumAmounts sel ∧ sel.length ≤ cap ∧
        (∀ c ∈ sel, c ∈ cands ∨ c ∈ acc) ∧ (∀ c ∈ unsel, c ∈ cands) := by
  intro cands
  induction cands with
  | nil =>
      intro acc sel unsel hlen h
      rw [sampleGo] at h
      split at h
      · cases h
        refine ⟨by simpa [sumAmounts_reverse] using ‹target ≤ sumAmounts acc›,
          by simpa using hlen, ?_, ?_⟩
        · intro c hc
          exact Or.inr (List.mem_reverse.mp hc)
        · intro c hc
          cases hc
      · split at h <;> cases h
  | cons c rest ih =>
      intro acc sel unsel hlen h
      rw [sampleGo] at h
      split at h
      · cases h
        refine ⟨by simpa [sumAmounts_reverse] using ‹target ≤ sumAmounts acc›,
          by simpa using hlen, ?_, ?_⟩
        · intro c2 hc2
          exact Or.inr (List.mem_reverse.mp hc2)
        · intro c2 hc2
          exact hc2
      · rename_i hnot
        split at h
        · cases h
        · rename_i hcap
          have hlen2 : (c :: acc).length ≤ cap := by
            have : acc.length < cap := Nat.lt_of_le_of_ne hlen hcap
            simpa using this
          obtain ⟨h1, h2, h3, h4⟩ := ih (c :: acc) sel unsel hlen2 h
          refine ⟨h1, h2, fun c2 hc2 => ?_, fun c2 hc2 =>
            List.mem_cons_of_mem _ (h4 c2 hc2)⟩
          rcases h3 c2 hc2 with hm | hm
          · exact Or.inl (List.mem_cons_of_mem _ hm)
          · rcases List.mem_cons.mp hm with rfl | hm2
            · exact Or.inl (List.mem_cons_self _ _)
            · exact Or.inr hm2

/-- The least-amount element is an element. -/
theorem minByAmount_mem :
    ∀ (l : List CoinType) (m : CoinType), minByAmount l = some m → m ∈ l := by
  intro l
  induction l with
  | nil => intro m h; cases h
  | cons c rest ih =>
      intro m h
      simp only [minByAmount] at h
      cases hr : minByAmount rest with
      | none => rw [hr] at h; cases h; exact List.mem_cons_self _ _
      | some m2 =>
          rw [hr] at h
          cases h
          by_cases hlt : m2.amount < c.amount
          · simpa [hlt] using List.mem_cons_of_mem _ (ih m2 hr)
          · simp [hlt]

/-- One improvement swap keeps the cumulative amount at or above the
target, keeps the selection size, and draws only from the previous
selection and the unselected pool. -/
theorem improveOnce_spec (target : Nat) (sel unsel sel2 unsel2 : List CoinType)
    (h : improveOnce target sel unsel = some (sel2, unsel2)) :
    target ≤ sumAmounts sel2 ∧ sel2.length = sel.length ∧
      (∀ c ∈ sel2, c ∈ sel ∨ c ∈ unsel) ∧
      (∀ c ∈ unsel2, c ∈ sel ∨ c ∈ unsel) := by
  simp only [improveOnce] at h
  cases hw : minByAmount sel with
  | none => rw [hw] at h; cases h
  | some w =>
      rw [hw] at h
      dsimp only at h
      cases hu : minByAmount (unsel.filter (fun u =>
          decide (u.amount < w.amount) &&
          decide (target ≤ u.amount + sumAmounts (sel.erase w)))) with
      | none => rw [hu] at h; cases h
      | some u =>
          rw [hu] at h
          dsimp only at h
          cases h
          have hwmem : w ∈ sel := minByAmount_mem sel w hw
          have humem := minByAmount_mem _ u hu
          have hufacts := List.mem_filter.mp humem
          have hguard : target ≤ u.amount + sumAmounts (sel.erase w) := by
            have := hufacts.2
            simp only [Bool.and_eq_true, decide_eq_true_eq] at this
            exact this.2
          refine ⟨?_, ?_, ?_, ?_⟩
          · simpa [sumAmounts] using hguard
          · have := List.length_erase_of_mem hwmem
            have hpos : 1 ≤ sel.length := List.length_pos.mpr
              (List.ne_nil_of_mem hwmem)
            simp [this]
            omega
          · intro c hc
            rcases List.mem_cons.mp hc with rfl | hm
            · exact Or.inr hufacts.1
            · exact Or.inl (List.mem_of_mem_erase hm)
          · intro c hc
            rcases List.mem_cons.mp hc with rfl | hm
            · exact Or.inl hwmem
            · exact Or.inr (List.mem_of_mem_erase hm)

/-- The bounded improvement loop preserves the selection contract:
amounts stay at or above the target, the size stays within the cap, and
members stay within the eligible pool. -/
theorem improveLoop_inv (target cap : Nat) (E : List CoinType) :
    ∀ (fuel : Nat) (sel unsel : List CoinType),
      target ≤ sumAmounts sel → sel.length ≤ cap →
      (∀ c ∈ sel, c ∈ E) → (∀ c ∈ unsel, c ∈ E) →
      target ≤ sumAmounts (improveLoop target fuel sel unsel) ∧
        (improveLoop target fuel sel unsel).length ≤ cap ∧
        ∀ c ∈ improveLoop target fuel sel unsel, c ∈ E := by
  intro fuel
  induction fuel with
  | zero => intro sel unsel h1 h2 h3 _; exact ⟨h1, h2, h3⟩
  | succ n ih =>
      intro sel unsel h1 h2 h3 h4
      simp only [improveLoop]
      cases himp : improveOnce target sel unsel with
      | none => exact ⟨h1, h2, h3⟩
      | some p =>
          obtain ⟨sel2, unsel2⟩ := p
          obtain ⟨g1, g2, g3, g4⟩ := improveOnce_spec target sel unsel sel2 unsel2 himp
          have hmem2 : ∀ c ∈ sel2, c ∈ E := by
            intro c hc
            rcases g3 c hc with hm | hm
            · exact h3 c hm
            · exact h4 c hm
          have hmem3 : ∀ c ∈ unsel2, c ∈ E := by
            intro c hc
            rcases g4 c hc with hm | hm
            · exact h3 c hm
            · exact h4 c hm
          exact ih sel2 unsel2 g1 (g2 ▸ h2) hmem2 hmem3

/-- The per-asset fallback selection satisfies the per-asset contract:
amounts reach the target, the size respects the normalized cap, and no
record's identifier is excluded. -/
theorem select_one_fallback_ok (db : ReadView) (owner seed : Nat)
    (ex : Exclude) (t : AssetSpendTarget) (cs : List CoinType)
    (h : select_one_fallback db owner seed ex t = .ok cs) :
    t.target ≤ sumAmounts cs ∧ cs.length ≤ t.max ∧
      ∀ c ∈ cs, coinTypeId c ∉ ex.ids := by
  simp only [select_one_fallback, bind, Except.bind] at h
  cases hs : sampleGo t.target t.max t.asset_id
      (seedPermute seed ((db.domain owner t.asset_id).filter
        (fun c => decide (coinTypeId c ∉ ex.ids)))) [] with
  | error e => rw [hs] at h; cases h
  | ok p =>
      obtain ⟨sel, unsel⟩ := p
      rw [hs] at h
      cases h
      obtain ⟨h1, h2, h3, h4⟩ := sampleGo_ok _ _ _ _ [] sel unsel (Nat.zero_le _) hs
      have hperm : ∀ c ∈ seedPermute seed ((db.domain owner t.asset_id).filter
          (fun c => decide (coinTypeId c ∉ ex.ids))),
          c ∈ (db.domain owner t.asset_id).filter
            (fun c => decide (coinTypeId c ∉ ex.ids)) := by
        intro c hc
        exact (List.mem_rotate).mp hc
      have hselE : ∀ c ∈ sel, c ∈ (db.domain owner t.asset_id).filter
          (fun c => decide (coinTypeId c ∉ ex.ids)) := by
        intro c hc
        rcases h3 c hc with hm | hm
        · exact hperm c hm
        · cases hm
      have hunselE : ∀ c ∈ unsel, c ∈ (db.domain owner t.asset_id).filter
          (fun c => decide (coinTypeId c ∉ ex.ids)) := fun c hc => hperm c (h4 c hc)
      obtain ⟨g1, g2, g3⟩ := improveLoop_inv t.target t.max _ t.max sel unsel h1 h2
        hselE hunselE
      refine ⟨g1, g2, ?_⟩
      intro c hc
      have := (List.mem_filter.mp (g3 c hc)).2
      simpa using this

/-- Structure of a successful fallback-path run over a target list: one
inner list per target, at the same index, each produced by the per-asset
fallback selection. -/
theorem random_improve_go_ok (db : ReadView) (sq : SpendQuery) (seed : Nat) :
    ∀ (ts : List AssetSpendTarget) (res : List (List CoinType)),
      random_improve.go db sq seed ts = .ok res →
      res.length = ts.length ∧
        ∀ i (h1 : i < ts.length) (h2 : i < res.length),
          select_one_fallback db sq.owner seed sq.exclude (ts.get ⟨i, h1⟩) =
            .ok (res.get ⟨i, h2⟩) := by
  intro ts
  induction ts with
  | nil =>
      intro res h
      cases h
      exact ⟨rfl, fun i h1 _ => absurd h1 (Nat.not_lt_zero i)⟩
  | cons t rest ih =>
      intro res h
      simp only [random_improve.go, bind, Except.bind] at h
      cases ht : select_one_fallback db sq.owner seed sq.exclude t with
      | error e => simp [ht] at h
      | ok cs =>
          simp only [ht] at h
          cases hrest : random_improve.go db sq seed rest with
          | error e => simp [hrest] at h
          | ok res2 =>
              simp only [hrest] at h
              cases h
              obtain ⟨hlen, hidx⟩ := ih res2 hrest
              refine ⟨by simp [hlen], ?_⟩
              intro i h1 h2
              cases i with
              | zero => simpa using ht
              | succ j =>
                  have hj1 : j < rest.length := by simpa using h1
                  have hj2 : j < res2.length := by simpa using h2
                  simpa using hidx j hj1 hj2

/-- Per-asset contract of a successful fallback-path run, phrased against
the raw query elements: amounts reach the targets, sizes respect the
clamped caps, and no identifier is excluded. -/
theorem without_cache_ok (db : ReadView) (owner : Nat)
    (qs : List SpendQueryElementInput) (ex : Exclude) (max_input : Nat)
    (base_asset_id seed : Nat) (res : List (List CoinType))
    (h : coins_to_spend_without_cache db owner qs ex max_input base_asset_id
      seed = .ok res) :
    res.length = qs.length ∧
      ∀ i (h1 : i < qs.length) (h2 : i < res.length),
        (qs.get ⟨i, h1⟩).amount ≤ sumAmounts (res.get ⟨i, h2⟩) ∧
          (res.get ⟨i, h2⟩).length ≤
            effective_cap_without_cache (qs.get ⟨i, h1⟩) max_input ∧
          ∀ c ∈ res.get ⟨i, h2⟩, coinTypeId c ∉ ex.ids := by
  simp only [coins_to_spend_without_cache, SpendQuery.new, bind, Except.bind] at h
  obtain ⟨hlen, hidx⟩ := random_improve_go_ok db _ seed _ res h
  have hlen2 : res.length = qs.length := by simpa using hlen
  refine ⟨hlen2, ?_⟩
  intro i h1 h2
  have h1m : i < (qs.map (fun e => AssetSpendTarget.mk e.asset_id e.amount
      (effective_cap_without_cache e max_input))).length := by simpa using h1
  have hsel := hidx i h1m h2
  have hget : (qs.map (fun e => AssetSpendTarget.mk e.asset_id e.amount
      (effective_cap_without_cache e max_input))).get ⟨i, h1m⟩ =
      AssetSpendTarget.mk (qs.get ⟨i, h1⟩).asset_id (qs.get ⟨i, h1⟩).amount
        (effective_cap_without_cache (qs.get ⟨i, h1⟩) max_input) := by
    simp
  rw [hget] at hsel
  obtain ⟨g1, g2, g3⟩ := select_one_fallback_ok db owner seed ex _ _ hsel
  exact ⟨g1, g2, g3⟩

/-- A returned first duplicate occurs in the scanned list, and occurs
twice unless it was already among the previously seen ids. -/
theorem firstDupGo_some :
    ∀ (l seen : List Nat) (a : Nat),
      firstDupGo seen l = some a →
      a ∈ l ∧ (a ∈ seen ∨ 2 ≤ l.count a) := by
  intro l
  induction l with
  | nil => intro seen a h; cases h
  | cons b rest ih =>
      intro seen a h
      simp only [firstDupGo] at h
      by_cases hb : b ∈ seen
      · rw [if_pos hb] at h
        cases h
        exact ⟨List.mem_cons_self _ _, Or.inl hb⟩
      · rw [if_neg hb] at h
        obtain ⟨hmem, hrest⟩ := ih (b :: seen) a h
        refine ⟨List.mem_cons_of_mem _ hmem, ?_⟩
        rcases hrest with hs | hc
        · rcases List.mem_cons.mp hs with rfl | hs2
          · right
            have hpos : 0 < rest.count a := List.count_pos_iff.mpr hmem
            rw [List.count_cons_self]
            omega
          · exact Or.inl hs2
        · right
          rw [List.count_cons]
          omega

/-- The duplicate scan reports nothing on a duplicate-free list whose
elements are all unseen. -/
theorem firstDupGo_none :
    ∀ (l seen : List Nat),
      (∀ a ∈ l, a ∉ seen) → l.Nodup → firstDupGo seen l = none := by
  intro l
  induction l with
  | nil => intro seen _ _; rfl
  | cons b rest ih =>
      intro seen hout hnd
      simp only [firstDupGo]
      rw [if_neg (hout b (List.mem_cons_self _ _))]
      refine ih (b :: seen) ?_ (List.Nodup.of_cons hnd)
      intro a ha
      intro hmem
      rcases List.mem_cons.mp hmem with rfl | hs
      · exact (List.nodup_cons.mp hnd).1 ha
      · exact hout a (List.mem_cons_of_mem _ ha) hs

/-- A silent scan certifies the absence of duplicates. -/
theorem firstDupGo_eq_none :
    ∀ (l seen : List Nat),
      firstDupGo seen l = none → l.Nodup ∧ ∀ a ∈ l, a ∉ seen := by
  intro l
  induction l with
  | nil => intro seen _; exact ⟨List.nodup_nil, by intro a ha; cases ha⟩
  | cons b rest ih =>
      intro seen h
      simp only [firstDupGo] at h
      by_cases hb : b ∈ seen
      · rw [if_pos hb] at h; cases h
      · rw [if_neg hb] at h
        obtain ⟨hnd, hout⟩ := ih (b :: seen) h
        constructor
        · refine List.nodup_cons.mpr ⟨?_, hnd⟩
          intro hbr
          exact hout b hbr (List.mem_cons_self _ _)
        · intro a ha
          rcases List.mem_cons.mp ha with rfl | ha2
          · exact hb
          · intro hs
            exact hout a ha2 (List.mem_cons_of_mem _ hs)

/-- A list with a duplicate makes the scan report an id that occurs at
least twice. -/
theorem firstDup_of_not_nodup (l : List Nat) (h : ¬ l.Nodup) :
    ∃ a, firstDup l = some a ∧ 2 ≤ l.count a := by
  cases hf : firstDup l with
  | none => exact absurd (firstDupGo_eq_none l [] hf).1 h
  | some a =>
      obtain ⟨hmem, hrest⟩ := firstDupGo_some l [] a hf
      rcases hrest with hs | hc
      · cases hs
      · exact ⟨a, rfl, hc⟩

/-- A duplicate-free target list passes the duplicate scan. -/
theorem firstDup_of_nodup (l : List Nat) (h : l.Nodup) : firstDup l = none :=
  firstDupGo_none l [] (by intro a _ hs; cases hs) h

/-- When the exclusion-count check passes and the target list repeats an
asset id, the resolver fails with a duplicate-assets error naming an id
that occurs at least twice. -/
theorem resolver_duplicate_error (params : ConsensusParams) (db : ReadView)
    (owner : Nat) (qs : List SpendQueryElementInput)
    (excluded_ids : Option ExcludeInput) (seed : Nat)
    (hcnt : ¬ params.max_inputs < excludedIdCount excluded_ids)
    (hdup : ¬ (qs.map (fun q => q.asset_id)).Nodup) :
    ∃ a, 2 ≤ (qs.map (fun q => q.asset_id)).count a ∧
      coins_to_spend_resolver params db owner qs excluded_ids seed =
        .error (.duplicateAssets a) := by
  obtain ⟨a, ha, hcount⟩ := firstDup_of_not_nodup _ hdup
  refine ⟨a, hcount, ?_⟩
  simp only [coins_to_spend_resolver]
  rw [if_neg hcnt, ha]

/-! Claim theorems. -/

/-- C1: for every successful per-asset selection returned by
`coins_to_spend` (on either selection path), the sum of the resolved
amounts is at least that asset's target amount, the number of returned
records is at most that asset's effective cap
(min of the requested cap, defaulting to the ceiling, and the ceiling),
and no returned identifier is a member of the query's exclusion set.  On
the indexed path the resolved amounts are tied to the index keys by the
index-coherence contract `IndexCoherent`. -/
theorem coins_to_spend_selection_invariants (db : ReadView) (owner : Nat)
    (qs : List SpendQueryElementInput) (ex : Exclude)
    (params : ConsensusParams) (max_input seed : Nat)
    (res : List (List CoinType))
    (hcoh : IndexCoherent db owner qs)
    (hok : ReadView.coins_to_spend db owner qs ex params max_input seed = .ok res) :
    res.length = qs.length ∧
      ∀ i (h1 : i < qs.length) (h2 : i < res.length),
        (qs.get ⟨i, h1⟩).amount ≤ sumAmounts (res.get ⟨i, h2⟩) ∧
          (res.get ⟨i, h2⟩).length ≤
            Nat.min ((qs.get ⟨i, h1⟩).max.getD max_input) max_input ∧
          ∀ c ∈ res.get ⟨i, h2⟩, coinTypeId c ∉ ex.ids := by
  unfold ReadView.coins_to_spend at hok
  split at hok
  · obtain ⟨hlen, hidx⟩ := with_cache_ok db owner ex max_input qs res hok
    refine ⟨hlen, ?_⟩
    intro i h1 h2
    have hq : qs.get ⟨i, h1⟩ ∈ qs := List.get_mem qs i h1
    obtain ⟨g1, g2, g3⟩ := spend_one_asset_ok db owner ex max_input
      (qs.get ⟨i, h1⟩) (res.get ⟨i, h2⟩)
      (fun k hk => hcoh (qs.get ⟨i, h1⟩) hq k hk) (hidx i h1 h2)
    exact ⟨g1, g2, g3⟩
  · obtain ⟨hlen, hidx⟩ := without_cache_ok db owner qs ex max_input
      params.base_asset_id seed res hok
    exact ⟨hlen, hidx⟩

/-- Witness for C1: a concrete successful indexed-path query on a coherent
view, with the per-asset guarantees instantiated. -/
theorem coins_to_spend_selection_invariants_witness :
    IndexCoherent dbIndexed 7 exampleQuery ∧
      ReadView.coins_to_spend dbIndexed 7 exampleQuery ⟨[]⟩ exampleParams 5 0 =
        .ok exampleResult ∧
      (exampleResult.length = exampleQuery.length ∧
        ∀ i (h1 : i < exampleQuery.length) (h2 : i < exampleResult.length),
          (exampleQuery.get ⟨i, h1⟩).amount ≤
              sumAmounts (exampleResult.get ⟨i, h2⟩) ∧
            (exampleResult.get ⟨i, h2⟩).length ≤
              Nat.min ((exampleQuery.get ⟨i, h1⟩).max.getD 5) 5 ∧
            ∀ c ∈ exampleResult.get ⟨i, h2⟩,
              coinTypeId c ∉ (⟨[]⟩ : Exclude).ids) :=
  ⟨by unfold IndexCoherent; decide, by rfl,
    coins_to_spend_selection_invariants dbIndexed 7 exampleQuery ⟨[]⟩
      exampleParams 5 0 exampleResult (by unfold IndexCoherent; decide) (by rfl)⟩

/-- C2: whenever the combined length of the plain and bridged exclusion
lists exceeds the query-wide ceiling, the resolver fails with
`TooManyExcludedIds(provided, allowed)`.  The read view `db` is
universally quantified and absent from the result, so the failure is
decided before any storage access. -/
theorem resolver_too_many_excluded_before_storage (params : ConsensusParams)
    (db : ReadView) (owner : Nat) (qs : List SpendQueryElementInput)
    (excluded_ids : Option ExcludeInput) (seed : Nat)
    (h : params.max_inputs < excludedIdCount excluded_ids) :
    coins_to_spend_resolver params db owner qs excluded_ids seed =
      .error (.tooManyExcludedId (excludedIdCount excluded_ids)
        params.max_inputs) := by
  simp only [coins_to_spend_resolver]
  rw [if_pos h]

/-- Witness for C2: three excluded ids against a ceiling of two fail with
the counts reported. -/
theorem resolver_too_many_excluded_before_storage_witness :
    (2 : Nat) < excludedIdCount (some ⟨[10, 11], [12]⟩) ∧
      coins_to_spend_resolver ⟨2, 9⟩ dbIndexed 7 exampleQuery
        (some ⟨[10, 11], [12]⟩) 0 = .error (.tooManyExcludedId 3 2) :=
  ⟨by decide, resolver_too_many_excluded_before_storage ⟨2, 9⟩ dbIndexed 7
    exampleQuery (some ⟨[10, 11], [12]⟩) 0 (by decide)⟩

/-- Counterexample for C3 as stated: a query whose targets repeat asset 1
but whose exclusion lists also exceed the ceiling fails with
`TooManyExcludedIds`, not with `DuplicateAssets`, because the
exclusion-count check runs first. -/
theorem duplicate_assets_claim_counterexample :
    coins_to_spend_resolver ⟨1, 9⟩ dbIndexed 7 [⟨1, 5, none⟩, ⟨1, 6, none⟩]
        (some ⟨[10, 11], []⟩) 0 = .error (.tooManyExcludedId 2 1) ∧
      coins_to_spend_resolver ⟨1, 9⟩ dbIndexed 7 [⟨1, 5, none⟩, ⟨1, 6, none⟩]
        (some ⟨[10, 11], []⟩) 0 ≠ .error (.duplicateAssets 1) := by
  constructor
  · rfl
  · intro h
    cases h

/-- C3 (amended): provided the exclusion-count check passes, a query in
which the same asset id appears more than once among the requested
targets fails with `DuplicateAssets` naming a repeated asset id,
regardless of the amounts requested. -/
theorem resolver_duplicate_assets_amended (params : ConsensusParams)
    (db : ReadView) (owner : Nat) (qs : List SpendQueryElementInput)
    (excluded_ids : Option ExcludeInput) (seed : Nat)
    (hcnt : excludedIdCount excluded_ids ≤ params.max_inputs)
    (hdup : ¬ (qs.map (fun q => q.asset_id)).Nodup) :
    ∃ a, 2 ≤ (qs.map (fun q => q.asset_id)).count a ∧
      coins_to_spend_resolver params db owner qs excluded_ids seed =
        .error (.duplicateAssets a) :=
  resolver_duplicate_error params db owner qs excluded_ids seed
    (Nat.not_lt.mpr hcnt) hdup

/-- Witness for C3: asset 1 requested twice with distinct amounts fails
with a duplicate-assets error. -/
theorem resolver_duplicate_assets_amended_witness :
    excludedIdCount none ≤ (5 : Nat) ∧
      ¬ (([⟨1, 5, none⟩, ⟨1, 6, none⟩] :
          List SpendQueryElementInput).map (fun q => q.asset_id)).Nodup ∧
      ∃ a, 2 ≤ (([⟨1, 5, none⟩, ⟨1, 6, none⟩] :
          List SpendQueryElementInput).map (fun q => q.asset_id)).count a ∧
        coins_to_spend_resolver ⟨5, 9⟩ dbIndexed 7
          [⟨1, 5, none⟩, ⟨1, 6, none⟩] none 0 = .error (.duplicateAssets a) :=
  ⟨by decide, by decide,
    resolver_duplicate_assets_amended ⟨5, 9⟩ dbIndexed 7
      [⟨1, 5, none⟩, ⟨1, 6, none⟩] none 0 (by decide) (by decide)⟩

/-- C4: a successful indexed-path run returns one inner list per asset
target, and the inner list at each outer index is exactly the selection
and resolution of the target at the same index of the input list. -/
theorem with_cache_result_shape (db : ReadView) (owner : Nat) (ex : Exclude)
    (max_input : Nat) (qs : List SpendQueryElementInput)
    (res : List (List CoinType))
    (hok : coins_to_spend_with_cache db owner ex max_input qs = .ok res) :
    res.length = qs.length ∧
      ∀ i (h1 : i < qs.length) (h2 : i < res.length),
        spend_one_asset db owner ex max_input (qs.get ⟨i, h1⟩) =
          .ok (res.get ⟨i, h2⟩) :=
  with_cache_ok db owner ex max_input qs res hok

/-- Witness for C4: a two-asset query returns two inner lists aligned
with the two targets. -/
theorem with_cache_result_shape_witness :
    coins_to_spend_with_cache dbIndexed 7 ⟨[]⟩ 5
        [⟨1, 12, none⟩, ⟨2, 6, none⟩] =
      .ok [[.coin ⟨100, 7, 20, 1, 3, 0⟩], [.coin ⟨200, 7, 7, 2, 4, 1⟩]] ∧
      (([[.coin ⟨100, 7, 20, 1, 3, 0⟩], [.coin ⟨200, 7, 7, 2, 4, 1⟩]] :
          List (List CoinType)).length =
        ([⟨1, 12, none⟩, ⟨2, 6, none⟩] : List SpendQueryElementInput).length ∧
      ∀ i (h1 : i < ([⟨1, 12, none⟩, ⟨2, 6, none⟩] :
            List SpendQueryElementInput).length)
        (h2 : i < ([[.coin ⟨100, 7, 20, 1, 3, 0⟩],
            [.coin ⟨200, 7, 7, 2, 4, 1⟩]] : List (List CoinType)).length),
        spend_one_asset dbIndexed 7 ⟨[]⟩ 5
            (([⟨1, 12, none⟩, ⟨2, 6, none⟩] :
              List SpendQueryElementInput).get ⟨i, h1⟩) =
          .ok (([[.coin ⟨100, 7, 20, 1, 3, 0⟩],
            [.coin ⟨200, 7, 7, 2, 4, 1⟩]] : List (List CoinType)).get ⟨i, h2⟩)) :=
  ⟨by rfl, with_cache_result_shape dbIndexed 7 ⟨[]⟩ 5
    [⟨1, 12, none⟩, ⟨2, 6, none⟩]
    [[.coin ⟨100, 7, 20, 1, 3, 0⟩], [.coin ⟨200, 7, 7, 2, 4, 1⟩]] (by rfl)⟩

/-- C5: when the target list passes the duplicate check, the resolver
behaves exactly as if the target list had been truncated to its first
`max_inputs` entries: targets past the ceiling are silently dropped and
never cause an error. -/
theorem resolver_truncates_targets (params : ConsensusParams) (db : ReadView)
    (owner : Nat) (qs : List SpendQueryElementInput)
    (excluded_ids : Option ExcludeInput) (seed : Nat)
    (hdup : (qs.map (fun q => q.asset_id)).Nodup) :
    coins_to_spend_resolver params db owner qs excluded_ids seed =
      coins_to_spend_resolver params db owner (qs.take params.max_inputs)
        excluded_ids seed := by
  simp only [coins_to_spend_resolver]
  by_cases hcnt : params.max_inputs < excludedIdCount excluded_ids
  · rw [if_pos hcnt, if_pos hcnt]
  · rw [if_neg hcnt, if_neg hcnt]
    have hdup2 : ((qs.take params.max_inputs).map
        (fun q => q.asset_id)).Nodup := by
      rw [List.map_take]
      exact List.Nodup.sublist (List.take_sublist _ _) hdup
    rw [firstDup_of_nodup _ hdup, firstDup_of_nodup _ hdup2]
    rw [List.take_take, Nat.min_self]

/-- Witness for C5: with ceiling 1, a duplicate-free two-target query
returns exactly what the one-target prefix returns. -/
theorem resolver_truncates_targets_witness :
    (([⟨1, 12, none⟩, ⟨2, 6, none⟩] :
        List SpendQueryElementInput).map (fun q => q.asset_id)).Nodup ∧
      coins_to_spend_resolver ⟨1, 9⟩ dbIndexed 7
          [⟨1, 12, none⟩, ⟨2, 6, none⟩] none 0 =
        coins_to_spend_resolver ⟨1, 9⟩ dbIndexed 7
          (([⟨1, 12, none⟩, ⟨2, 6, none⟩] :
            List SpendQueryElementInput).take 1) none 0 :=
  ⟨by decide, resolver_truncates_targets ⟨1, 9⟩ dbIndexed 7
    [⟨1, 12, none⟩, ⟨2, 6, none⟩] none 0 (by decide)⟩

/-- C6: on both selection paths the effective per-asset cap is the
requested cap when supplied (the ceiling otherwise), clamped by the
query-wide ceiling, and the two paths compute it identically. -/
theorem effective_cap_clamp (q : SpendQueryElementInput) (max_input : Nat) :
    effective_cap_with_cache q max_input =
        Nat.min (q.max.getD max_input) max_input ∧
      effective_cap_without_cache q max_input =
        Nat.min (q.max.getD max_input) max_input ∧
      effective_cap_with_cache q max_input =
        effective_cap_without_cache q max_input :=
  ⟨rfl, rfl, rfl⟩

/-- C7: the indexed selection path is deterministic.  In this model the
only nondeterminism of a call is the entropy seed injected into the
fallback selector; when the secondary spend index is available the
resolver's result is independent of the seed, so two calls against the
same read view with the same query return identical results, in
identical order. -/
theorem indexed_path_deterministic (params : ConsensusParams) (db : ReadView)
    (owner : Nat) (qs : List SpendQueryElementInput)
    (excluded_ids : Option ExcludeInput) (s1 s2 : Nat)
    (hidx : db.indexation_available = true) :
    coins_to_spend_resolver params db owner qs excluded_ids s1 =
      coins_to_spend_resolver params db owner qs excluded_ids s2 := by
  simp only [coins_to_spend_resolver, ReadView.coins_to_spend, hidx, if_true]

/-- Witness for C7: two calls with different seeds on the indexed view
coincide. -/
theorem indexed_path_deterministic_witness :
    dbIndexed.indexation_available = true ∧
      coins_to_spend_resolver exampleParams dbIndexed 7 exampleQuery none 0 =
        coins_to_spend_resolver exampleParams dbIndexed 7 exampleQuery none 1 :=
  ⟨by rfl, indexed_path_deterministic exampleParams dbIndexed 7 exampleQuery
    none 0 1 (by rfl)⟩

/-- C8: if the per-asset step fails for some target (all earlier targets
succeeding), the whole indexed-path run returns exactly that error; being
an error, it carries no per-asset results, including those of the targets
that had already succeeded. -/
theorem per_asset_failure_aborts_query (db : ReadView) (owner : Nat)
    (ex : Exclude) (max_input : Nat)
    (pre post : List SpendQueryElementInput) (q : SpendQueryElementInput)
    (e : CoinsQueryError)
    (hpre : ∀ p ∈ pre, ∃ cs, spend_one_asset db owner ex max_input p = .ok cs)
    (hfail : spend_one_asset db owner ex max_input q = .error e) :
    coins_to_spend_with_cache db owner ex max_input (pre ++ q :: post) =
      .error e := by
  induction pre with
  | nil =>
      simp only [List.nil_append, coins_to_spend_with_cache, bind,
        Except.bind, hfail]
  | cons p rest ih =>
      obtain ⟨cs, hcs⟩ := hpre p (List.mem_cons_self _ _)
      have hrest := ih fun p2 hp2 => hpre p2 (List.mem_cons_of_mem _ hp2)
      simp only [List.cons_append, coins_to_spend_with_cache, bind,
        Except.bind, hcs, List.append_eq, hrest]

/-- Witness for C8: asset 1 succeeds but asset 3 has no entries, so the
two-asset run returns asset 3's insufficiency error and no results. -/
theorem per_asset_failure_aborts_query_witness :
    (∀ p ∈ ([⟨1, 12, none⟩] : List SpendQueryElementInput),
        ∃ cs, spend_one_asset dbIndexed 7 ⟨[]⟩ 5 p = .ok cs) ∧
      spend_one_asset dbIndexed 7 ⟨[]⟩ 5 ⟨3, 5, none⟩ =
        .error (.insufficientCoins 3 5) ∧
      coins_to_spend_with_cache dbIndexed 7 ⟨[]⟩ 5
          ([⟨1, 12, none⟩] ++ ⟨3, 5, none⟩ :: []) =
        .error (.insufficientCoins 3 5) := by
  refine ⟨?_, by rfl, ?_⟩
  · intro p hp
    rcases List.mem_cons.mp hp with rfl | hp2
    · exact ⟨[.coin ⟨100, 7, 20, 1, 3, 0⟩], by rfl⟩
    · cases hp2
  · refine per_asset_failure_aborts_query dbIndexed 7 ⟨[]⟩ 5 [⟨1, 12, none⟩] []
      ⟨3, 5, none⟩ (.insufficientCoins 3 5) ?_ (by rfl)
    intro p hp
    rcases List.mem_cons.mp hp with rfl | hp2
    · exact ⟨[.coin ⟨100, 7, 20, 1, 3, 0⟩], by rfl⟩
    · cases hp2

/-- C9: every bridged record reports the chain's base asset id through
the `asset_id` field resolver, independently of the record itself and of
the asset target whose selection produced it: for any successful
`coins_to_spend` call, every message coin in any inner list reports
`params.base_asset_id`. -/
theorem bridged_records_report_base_asset (params : ConsensusParams)
    (db : ReadView) (owner : Nat) (qs : List SpendQueryElementInput)
    (excluded_ids : Option ExcludeInput) (seed : Nat)
    (res : List (List CoinType)) (inner : List CoinType)
    (m : MessageCoinModel)
    (_hok : coins_to_spend_resolver params db owner qs excluded_ids seed =
      .ok res)
    (_hinner : inner ∈ res) (_hm : CoinType.messageCoin m ∈ inner) :
    messageCoin_asset_id params m = params.base_asset_id :=
  rfl

/-- Witness for C9: a query whose selection includes the bridged message
with nonce 5; its reported asset id is the base asset id 9, not the
queried asset id 1. -/
theorem bridged_records_report_base_asset_witness :
    coins_to_spend_resolver exampleParams dbIndexed 7 exampleQueryMsg none 0 =
        .ok exampleResultMsg ∧
      [CoinType.coin ⟨100, 7, 20, 1, 3, 0⟩, .messageCoin ⟨1, 7, 5, 10, 4⟩] ∈
        exampleResultMsg ∧
      CoinType.messageCoin ⟨1, 7, 5, 10, 4⟩ ∈
        [CoinType.coin ⟨100, 7, 20, 1, 3, 0⟩, .messageCoin ⟨1, 7, 5, 10, 4⟩] ∧
      messageCoin_asset_id exampleParams ⟨1, 7, 5, 10, 4⟩ =
        exampleParams.base_asset_id :=
  ⟨by rfl, by decide, by decide,
    bridged_records_report_base_asset exampleParams dbIndexed 7
      exampleQueryMsg none 0 exampleResultMsg
      [CoinType.coin ⟨100, 7, 20, 1, 3, 0⟩, .messageCoin ⟨1, 7, 5, 10, 4⟩]
      ⟨1, 7, 5, 10, 4⟩ (by rfl) (by decide) (by decide)⟩

/-- C10: duplicate-asset validation runs on the full, untruncated target
list: when the exclusion-count check passes, the truncated prefix is
duplicate-free, and yet the full list repeats an asset id (so the
repetition is only visible past the truncation point), the resolver
still fails with `DuplicateAssets`. -/
theorem duplicate_check_before_truncation (params : ConsensusParams)
    (db : ReadView) (owner : Nat) (qs : List SpendQueryElementInput)
    (excluded_ids : Option ExcludeInput) (seed : Nat)
    (hcnt : excludedIdCount excluded_ids ≤ params.max_inputs)
    (_hpre : ((qs.take params.max_inputs).map (fun q => q.asset_id)).Nodup)
    (hdup : ¬ (qs.map (fun q => q.asset_id)).Nodup) :
    ∃ a, 2 ≤ (qs.map (fun q => q.asset_id)).count a ∧
      coins_to_spend_resolver params db owner qs excluded_ids seed =
        .error (.duplicateAssets a) :=
  resolver_duplicate_error params db owner qs excluded_ids seed
    (Nat.not_lt.mpr hcnt) hdup

/-- Witness for C10: with ceiling 2, the list of targets for assets
1, 2, 1 is duplicate-free within the truncated prefix but repeats asset 1
at index 2, past the truncation point; the call still fails with a
duplicate-assets error. -/
theorem duplicate_check_before_truncation_witness :
    excludedIdCount none ≤ (2 : Nat) ∧
      ((([⟨1, 5, none⟩, ⟨2, 6, none⟩, ⟨1, 7, none⟩] :
          List SpendQueryElementInput).take 2).map
        (fun q => q.asset_id)).Nodup ∧
      ¬ (([⟨1, 5, none⟩, ⟨2, 6, none⟩, ⟨1, 7, none⟩] :
          List SpendQueryElementInput).map (fun q => q.asset_id)).Nodup ∧
      ∃ a, 2 ≤ (([⟨1, 5, none⟩, ⟨2, 6, none⟩, ⟨1, 7, none⟩] :
          List SpendQueryElementInput).map (fun q => q.asset_id)).count a ∧
        coins_to_spend_resolver ⟨2, 9⟩ dbIndexed 7
          [⟨1, 5, none⟩, ⟨2, 6, none⟩, ⟨1, 7, none⟩] none 0 =
          .error (.duplicateAssets a) :=
  ⟨by decide, by decide, by decide,
    duplicate_check_before_truncation ⟨2, 9⟩ dbIndexed 7
      [⟨1, 5, none⟩, ⟨2, 6, none⟩, ⟨1, 7, none⟩] none 0 (by decide)
      (by decide) (by decide)⟩
